import Mathlib

/-!
# Verification of the `ultra_map_lib` map-pattern codec

Shallow embedding of `src/lib.rs` (crate `ultra_map_lib`): a text codec for a
fixed 16x16 grid of terrain cells, each cell carrying a signed height level
(`i8`) and a `Prefab` tag.

Modelling conventions:
* Rust `i8` values are Lean `Int`s; every theorem that needs the `i8` range
  states it as a hypothesis.
* The fixed `[T; 256]` arrays are Lean `List`s; the constant `256` bound of
  the source arrays appears explicitly wherever the source indexes them.
* Fallible operations return `PResult`: `ok` for a normal return, `err e` for
  a typed `Err(e)` propagated with `?`, and `fatal` for a process abort — a
  `panic!`, an `unwrap()` on a failed result, or an out-of-bounds index on a
  fixed-size array.
* File I/O (opening/reading in `MapPattern::from`, creating/writing in
  `save_pattern`) is outside the embedding; we embed the text-processing part
  of `from` (`fromText`, lib.rs lines 53-102) and the text-construction part
  of `save_pattern` (`savePatternText`, lib.rs lines 167-192, with the final
  `writeln!` newline appended).
-/

set_option maxRecDepth 8192

/-- The `Error` enum of lib.rs (lines 11-27); payloads of the `#[from]`
variants are dropped. -/
inductive RError where
  | ultraMapConversionError
  | ultraMapParsingError
  | ultraMapIoError
  | ultraMapIndexOutOfBounds
  | ultraMapInvalidCharacter
deriving DecidableEq

/-- Result of running a piece of Rust code that may return `Ok`, return a
typed `Err`, or abort the process (`panic!` / `unwrap` of a failure /
out-of-bounds indexing of a fixed array). -/
inductive PResult (α : Type) where
  | ok : α → PResult α
  | err : RError → PResult α
  | fatal : PResult α
deriving DecidableEq

/-- The `Prefab` enum (lib.rs lines 197-205). -/
inductive Prefab where
  | Empty
  | Melee
  | Projectile
  | JumpPad
  | Stairs
  | Hideous
deriving DecidableEq

/-- `Prefab::match_char` (lib.rs lines 208-217). -/
def Prefab.matchChar : Prefab → Char
  | .Empty => '0'
  | .Melee => 'n'
  | .Projectile => 'p'
  | .JumpPad => 'J'
  | .Stairs => 's'
  | .Hideous => 'H'

/-- The `Into<char>` impl for `Prefab` (lib.rs lines 220-231). -/
def Prefab.intoChar : Prefab → Char
  | .Empty => '0'
  | .Melee => 'n'
  | .Projectile => 'p'
  | .JumpPad => 'J'
  | .Stairs => 's'
  | .Hideous => 'H'

/-- The `TryFrom<char>` impl for `Prefab` (lib.rs lines 233-246). -/
def Prefab.tryFromChar (c : Char) : Except RError Prefab :=
  if c = 'n' then .ok .Melee
  else if c = 'p' then .ok .Projectile
  else if c = 'J' then .ok .JumpPad
  else if c = 'H' then .ok .Hideous
  else if c = 's' then .ok .Stairs
  else if c = '0' then .ok .Empty
  else .error .ultraMapInvalidCharacter

/-- The `Default` impl for `Prefab` (lib.rs lines 248-252). -/
def prefabDefault : Prefab := Prefab.Projectile

/-- `MapPattern` (lib.rs lines 31-35): `level_map : [i8; 256]`,
`prefab_map : [Prefab; 256]`, both modelled as lists. -/
structure MapPattern where
  level_map : List Int
  prefab_map : List Prefab
deriving DecidableEq

/-- The `Default` impl for `MapPattern` (lib.rs lines 37-44). -/
def defaultMapPattern : MapPattern :=
  ⟨List.replicate 256 0, List.replicate 256 Prefab.Empty⟩

/-! ## Parser (`MapPattern::from`, text-processing part, lib.rs lines 53-102) -/

/-- Rust `char::is_whitespace`: membership in the Unicode `White_Space`
property (the 25 code points with that property). -/
def isRustWhitespace (c : Char) : Bool :=
  let n := c.toNat
  n = 0x09 || n = 0x0A || n = 0x0B || n = 0x0C || n = 0x0D || n = 0x20 ||
  n = 0x85 || n = 0xA0 || n = 0x1680 || (0x2000 ≤ n && n ≤ 0x200A) ||
  n = 0x2028 || n = 0x2029 || n = 0x202F || n = 0x205F || n = 0x3000

/-- Rust `char::to_digit(c, 10)`: `Some(d)` exactly for the ASCII digits. -/
def charToDigit? (c : Char) : Option Nat :=
  if 48 ≤ c.toNat ∧ c.toNat ≤ 57 then some (c.toNat - 48) else none

/-- An ASCII decimal digit (what `to_digit(10)` accepts inside
`i8::from_str`). -/
def isDecDigit (c : Char) : Bool := 48 ≤ c.toNat && c.toNat ≤ 57

/-- Value of a big-endian ASCII digit string (accumulator loop of
`from_str_radix`). -/
def digitsVal (cs : List Char) : Nat :=
  cs.foldl (fun a c => a * 10 + (c.toNat - 48)) 0

/-- Digits-and-range part of `i8::from_str` after the sign has been split
off: fails on an empty digit run, on a non-digit, or when the value (with
overflow checked at each accumulation step) leaves the `i8` range. -/
def parseI8Core (digits : List Char) (neg : Bool) : Option Int :=
  if digits = [] then none
  else if digits.all isDecDigit then
    let v : Int := if neg then -(digitsVal digits : Int) else (digitsVal digits : Int)
    if -128 ≤ v ∧ v ≤ 127 then some v else none
  else none

/-- Rust `str::parse::<i8>()` on a character list: optional `+`/`-` sign,
then a non-empty digit run whose value must fit in `i8`. -/
def parseI8 (cs : List Char) : Option Int :=
  match cs with
  | [] => none
  | c :: rest =>
    if c = '-' then parseI8Core rest true
    else if c = '+' then parseI8Core rest false
    else parseI8Core (c :: rest) false

/-- The loop state of `MapPattern::from` (lib.rs lines 53-59): the
`in_parentheses` flag, the accumulation buffer `temp`, the running token
`index`, and the two 256-element output buffers (`level_map : [i8; 256]`,
`prefab_map : [char; 256]` pre-filled with `'0'`). -/
structure ParseState where
  inParens : Bool
  temp : List Char
  index : Nat
  level_map : List Int
  prefab_map : List Char
deriving DecidableEq

/-- One iteration of the `for c in input.chars()` loop (lib.rs lines 61-90),
branch for branch:
whitespace is skipped; `'('` sets the flag; `')'` parses `temp` with
`.unwrap()` (abort on failure) and stores at `level_map[index]` (abort when
`index ≥ 256`); inside parentheses the character is buffered; otherwise for
`index < 256` the character must be an ASCII digit (`to_digit ... ok_or` — a
typed `ConversionError` — then an always-in-range `i8::try_from` whose
failure would be the typed `ParsingError`); for `index ≥ 256` the character
is stored raw at `prefab_map[index - 256]` (abort when `index ≥ 512`). -/
def step (s : ParseState) (c : Char) : PResult ParseState :=
  if isRustWhitespace c then .ok s
  else if c = '(' then .ok { s with inParens := true }
  else if c = ')' then
    match parseI8 s.temp with
    | none => .fatal
    | some v =>
      if s.index < 256 then
        .ok { s with
              inParens := false
              temp := []
              index := s.index + 1
              level_map := s.level_map.set s.index v }
      else .fatal
  else if s.inParens then .ok { s with temp := s.temp ++ [c] }
  else if s.index < 256 then
    match charToDigit? c with
    | none => .err .ultraMapConversionError
    | some d =>
      if d ≤ 127 then
        .ok { s with
              index := s.index + 1
              level_map := s.level_map.set s.index (d : Int) }
      else .err .ultraMapParsingError
  else
    if s.index - 256 < 256 then
      .ok { s with
            index := s.index + 1
            prefab_map := s.prefab_map.set (s.index - 256) c }
    else .fatal

/-- Sequencing of fallible steps: a typed error or an abort short-circuits
(the `?` operator, a panic, or an `unwrap` exits the enclosing function). -/
def PResult.andThen {A B : Type} : PResult A → (A → PResult B) → PResult B
  | .ok a, f => f a
  | .err e, _ => .err e
  | .fatal, _ => .fatal

/-- Running the scan loop over the remaining input, propagating a typed
error or an abort (the loop body exits the function on either). -/
def runFrom (s : ParseState) : List Char → PResult ParseState
  | [] => .ok s
  | c :: cs => (step s c).andThen (fun s2 => runFrom s2 cs)

/-- Initial scan state (lib.rs lines 53-59). -/
def initState : ParseState :=
  ⟨false, [], 0, List.replicate 256 0, List.replicate 256 '0'⟩

/-- One element of the prefab-resolution loop (lib.rs lines 93-97): `'0'`
stays the pre-initialised `Empty`; otherwise `Prefab::try_from(c).unwrap()`
— an abort when the character has no mapping. -/
def resolveOne (c : Char) : PResult Prefab :=
  if c = '0' then .ok .Empty
  else
    match Prefab.tryFromChar c with
    | .ok p => .ok p
    | .error _ => .fatal

/-- The prefab-resolution loop (lib.rs lines 92-97) over the collected raw
characters. -/
def resolvePrefabs : List Char → PResult (List Prefab)
  | [] => .ok []
  | c :: cs =>
    (resolveOne c).andThen fun p =>
      (resolvePrefabs cs).andThen fun ps => .ok (p :: ps)

/-- The text-processing part of `MapPattern::from` (lib.rs lines 53-102):
scan the characters, then resolve the raw prefab characters, then build the
`MapPattern`. -/
def fromText (cs : List Char) : PResult MapPattern :=
  (runFrom initState cs).andThen fun s =>
    (resolvePrefabs s.prefab_map).andThen fun ps => .ok ⟨s.level_map, ps⟩

/-! ## Serializer (`save_pattern`, text-construction part, lib.rs 167-192) -/

/-- Decimal digit list of `n` (the digits of Rust's `to_string`). The
magnitude of an `i8` is at most `128`, so three digit positions cover the
whole domain this embedding is used on (`n < 1000`). -/
def natDigits (n : Nat) : List Char :=
  if n < 10 then [Nat.digitChar n]
  else if n < 100 then [Nat.digitChar (n / 10), Nat.digitChar (n % 10)]
  else [Nat.digitChar (n / 100), Nat.digitChar (n / 10 % 10), Nat.digitChar (n % 10)]

/-- Rust `i8::to_string` character list: `-` followed by the magnitude for
negative values, the bare magnitude otherwise. -/
def intChars (v : Int) : List Char :=
  if v < 0 then '-' :: natDigits v.natAbs else natDigits v.natAbs

/-- One serialized height token (lib.rs lines 171-175): parenthesized when
`to_string` has more than one character, bare otherwise. -/
def heightToken (v : Int) : List Char :=
  if 1 < (intChars v).length then '(' :: intChars v ++ [')'] else intChars v

/-- The height-emission loop (lib.rs lines 170-180); `j` is the enumeration
index, a `'\n'` is pushed before every token whose index is a positive
multiple of 16. -/
def saveLevelsAux : List Int → Nat → List Char
  | [], _ => []
  | v :: vs, j =>
    (if j % 16 = 0 ∧ 0 < j then ['\n'] else []) ++ heightToken v ++ saveLevelsAux vs (j + 1)

/-- The prefab-emission loop (lib.rs lines 185-190), same row convention,
one `Prefab::match_char` character per cell. -/
def savePrefabsAux : List Prefab → Nat → List Char
  | [], _ => []
  | p :: ps, j =>
    (if j % 16 = 0 ∧ 0 < j then ['\n'] else [])
      ++ [Prefab.matchChar p] ++ savePrefabsAux ps (j + 1)

/-- The full text written by `save_pattern` (lib.rs lines 167-192): heights,
the two separator newlines (lines 182-183), prefabs, and the trailing
newline appended by `writeln!`. -/
def savePatternText (p : MapPattern) : List Char :=
  saveLevelsAux p.level_map 0
    ++ '\n' :: '\n' :: (savePrefabsAux p.prefab_map 0 ++ ['\n'])

/-! ## `get_map_raw` (lib.rs lines 119-133) -/

/-- One height character of `get_map_raw` (lib.rs line 122):
`char::from_digit(*i as u32, 10).unwrap()`. The `i8` → `u32` cast
sign-extends, so the cast value is a decimal digit exactly when
`0 ≤ i ≤ 9`; any other level aborts on the `unwrap`. -/
def rawLevelChar (v : Int) : PResult Char :=
  if 0 ≤ v ∧ v ≤ 9 then .ok (Nat.digitChar v.toNat) else .fatal

/-- The height loop of `get_map_raw` (lib.rs lines 121-124). -/
def rawLevelChars : List Int → PResult (List Char)
  | [] => .ok []
  | v :: vs =>
    (rawLevelChar v).andThen fun c =>
      (rawLevelChars vs).andThen fun cs => .ok (c :: cs)

/-- `get_map_raw` (lib.rs lines 119-133): the height characters, one `'\n'`,
then the prefab characters via the `Into<char>` impl; no row wrapping, no
blank-line separator, no trailing newline. -/
def getMapRaw (p : MapPattern) : PResult (List Char) :=
  (rawLevelChars p.level_map).andThen fun cs =>
    .ok (cs ++ '\n' :: p.prefab_map.map Prefab.intoChar)

/-! ## Mutators (lib.rs lines 138-164) -/

/-- `set_level_at` (lib.rs lines 138-147): index bound then the symmetric
range check, each `panic!` on violation. -/
def setLevelAt (p : MapPattern) (x y : Nat) (level : Int) : PResult MapPattern :=
  if 256 ≤ x * 16 + y then .fatal
  else if ¬(-50 ≤ level ∧ level ≤ 50) then .fatal
  else .ok { p with level_map := p.level_map.set (x * 16 + y) level }

/-- `set_level_at_index` (lib.rs lines 149-158): index bound, then only the
upper range check `level > 50`; the lower bound is not checked. -/
def setLevelAtIndex (p : MapPattern) (index : Nat) (level : Int) : PResult MapPattern :=
  if 256 ≤ index then .fatal
  else if 50 < level then .fatal
  else .ok { p with level_map := p.level_map.set index level }

/-- `set_prefab_at` (lib.rs lines 162-164): a bare write
`self.prefab_map[x * 16 + y] = prefab` with no explicit check; the only
guard is the abort the 256-element array indexing itself performs. -/
def setPrefabAt (p : MapPattern) (x y : Nat) (prefab : Prefab) : PResult MapPattern :=
  if x * 16 + y < 256 then
    .ok { p with prefab_map := p.prefab_map.set (x * 16 + y) prefab }
  else .fatal

/-! ## Well-formed height tokens (for the truncated-input claims) -/

/-- A height token of the input grammar: a bare digit character, or a
parenthesized run `(` cs `)`. -/
inductive HToken where
  | dig : Nat → HToken
  | paren : List Char → HToken

/-- The characters of a token. -/
def renderTok : HToken → List Char
  | .dig d => [Nat.digitChar d]
  | .paren cs => '(' :: cs ++ [')']

/-- The characters of a token sequence, concatenated. -/
def renderTokens : List HToken → List Char
  | [] => []
  | t :: ts => renderTok t ++ renderTokens ts

/-- A well-formed height token: a digit below ten, or a parenthesized run
that `i8` parsing accepts. -/
def wellformedTok : HToken → Bool
  | .dig d => d < 10
  | .paren cs => (parseI8 cs).isSome

/-- The height value a well-formed token denotes. -/
def tokVal : HToken → Int
  | .dig d => (d : Int)
  | .paren cs => (parseI8 cs).getD 0

/-- Sequential per-cell stores: `storeAll l i vs` writes the elements of
`vs` at positions `i, i+1, ...` of `l`, as the scan loop does. -/
def storeAll {α : Type} : List α → Nat → List α → List α
  | l, _, [] => l
  | l, i, v :: vs => storeAll (l.set i v) (i + 1) vs


/-! ## Character classification lemmas -/

/-- A scan character that falls into neither the whitespace nor the
parenthesis branch of the loop. -/
def plainChar (c : Char) : Prop :=
  isRustWhitespace c = false ∧ c ≠ '(' ∧ c ≠ ')'

theorem not_ws_of_toNat_range {c : Char} (h1 : 40 ≤ c.toNat) (h2 : c.toNat ≤ 127) :
    isRustWhitespace c = false := by
  simp only [isRustWhitespace, Bool.or_eq_false_iff, decide_eq_false_iff_not,
    Bool.and_eq_false_iff, decide_eq_true_eq]
  omega

theorem ne_char_of_toNat_ne {c c' : Char} (h : c.toNat ≠ c'.toNat) : c ≠ c' :=
  fun he => h (he ▸ rfl)

theorem plainChar_of_toNat_range {c : Char} (h1 : 42 ≤ c.toNat) (h2 : c.toNat ≤ 127) :
    plainChar c := by
  refine ⟨not_ws_of_toNat_range (by omega) h2, ?_, ?_⟩
  · exact ne_char_of_toNat_ne (by have : ('(').toNat = 40 := rfl; omega)
  · exact ne_char_of_toNat_ne (by have : (')').toNat = 41 := rfl; omega)

theorem digitChar_toNat {d : Nat} (h : d < 10) : (Nat.digitChar d).toNat = 48 + d := by
  interval_cases d <;> rfl

theorem isDecDigit_toNat {c : Char} (h : isDecDigit c = true) :
    48 ≤ c.toNat ∧ c.toNat ≤ 57 := by
  simpa [isDecDigit] using h

theorem plainChar_of_isDecDigit {c : Char} (h : isDecDigit c = true) : plainChar c := by
  obtain ⟨h1, h2⟩ := isDecDigit_toNat h
  exact plainChar_of_toNat_range (by omega) (by omega)

theorem isDecDigit_digitChar {d : Nat} (h : d < 10) : isDecDigit (Nat.digitChar d) = true := by
  simp [isDecDigit, digitChar_toNat h]; omega

theorem charToDigit?_digitChar {d : Nat} (h : d < 10) :
    charToDigit? (Nat.digitChar d) = some d := by
  have hc : 48 ≤ (Nat.digitChar d).toNat ∧ (Nat.digitChar d).toNat ≤ 57 := by
    rw [digitChar_toNat h]; omega
  rw [charToDigit?, if_pos hc, digitChar_toNat h]
  congr 1
  omega

theorem isDecDigit_ne_sign {c : Char} (h : isDecDigit c = true) : c ≠ '-' ∧ c ≠ '+' := by
  obtain ⟨h1, h2⟩ := isDecDigit_toNat h
  constructor
  · exact ne_char_of_toNat_ne (by have : ('-').toNat = 45 := rfl; omega)
  · exact ne_char_of_toNat_ne (by have : ('+').toNat = 43 := rfl; omega)

/-! ## Single-step lemmas for the scan loop -/

theorem step_ws {s : ParseState} {c : Char} (h : isRustWhitespace c = true) :
    step s c = .ok s := by
  simp [step, h]

theorem runFrom_cons_ok {s s' : ParseState} {c : Char} {cs : List Char}
    (h : step s c = .ok s') : runFrom s (c :: cs) = runFrom s' cs := by
  rw [runFrom, h, PResult.andThen]

theorem runFrom_cons_ws {s : ParseState} {c : Char} {cs : List Char}
    (h : isRustWhitespace c = true) : runFrom s (c :: cs) = runFrom s cs :=
  runFrom_cons_ok (step_ws h)

theorem runFrom_cons_newline {s : ParseState} {cs : List Char} :
    runFrom s ('\n' :: cs) = runFrom s cs :=
  runFrom_cons_ws (by decide)

theorem step_digit {t : List Char} {i : Nat} {lm : List Int} {pm : List Char} {d : Nat}
    (hd : d < 10) (hi : i < 256) :
    step ⟨false, t, i, lm, pm⟩ (Nat.digitChar d) =
      .ok ⟨false, t, i + 1, lm.set i (d : Int), pm⟩ := by
  obtain ⟨hw, hp1, hp2⟩ := plainChar_of_isDecDigit (isDecDigit_digitChar hd)
  simp [step, hw, hp1, hp2, hi, charToDigit?_digitChar hd]
  omega

theorem step_lparen {t : List Char} {i : Nat} {lm : List Int} {pm : List Char} {b : Bool} :
    step ⟨b, t, i, lm, pm⟩ '(' = .ok ⟨true, t, i, lm, pm⟩ := by
  have hw : isRustWhitespace '(' = false := by decide
  simp [step, hw]

theorem step_inparen {t : List Char} {i : Nat} {lm : List Int} {pm : List Char} {c : Char}
    (h : plainChar c) :
    step ⟨true, t, i, lm, pm⟩ c = .ok ⟨true, t ++ [c], i, lm, pm⟩ := by
  obtain ⟨hw, hp1, hp2⟩ := h
  simp [step, hw, hp1, hp2]

theorem step_rparen {t : List Char} {i : Nat} {lm : List Int} {pm : List Char} {b : Bool}
    {v : Int} (hv : parseI8 t = some v) (hi : i < 256) :
    step ⟨b, t, i, lm, pm⟩ ')' = .ok ⟨false, [], i + 1, lm.set i v, pm⟩ := by
  have hw : isRustWhitespace ')' = false := by decide
  simp [step, hw, hv, hi]

theorem step_prefab {t : List Char} {i : Nat} {lm : List Int} {pm : List Char} {c : Char}
    (h : plainChar c) (h1 : 256 ≤ i) (h2 : i < 512) :
    step ⟨false, t, i, lm, pm⟩ c = .ok ⟨false, t, i + 1, lm, pm.set (i - 256) c⟩ := by
  obtain ⟨hw, hp1, hp2⟩ := h
  have hni : ¬ i < 256 := by omega
  have hsub : i - 256 < 256 := by omega
  simp [step, hw, hp1, hp2, hni, hsub]

theorem step_prefab_oob {t : List Char} {i : Nat} {lm : List Int} {pm : List Char} {c : Char}
    (h : plainChar c) (h1 : 512 ≤ i) :
    step ⟨false, t, i, lm, pm⟩ c = .fatal := by
  obtain ⟨hw, hp1, hp2⟩ := h
  have hni : ¬ i < 256 := by omega
  have hsub : ¬ i - 256 < 256 := by omega
  simp [step, hw, hp1, hp2, hni, hsub]

/-! ## `storeAll` characterization -/

theorem storeAll_eq {α : Type} :
    ∀ (vs l : List α) (i : Nat), i + vs.length ≤ l.length →
      storeAll l i vs = l.take i ++ vs ++ l.drop (i + vs.length)
  | [], l, i, h => by
    simp only [storeAll, List.length_nil, Nat.add_zero, List.append_nil]
    exact (List.take_append_drop i l).symm
  | v :: vs, l, i, h => by
    have hlen : i < l.length := by simp at h; omega
    have hset : (l.set i v).length = l.length := by simp
    rw [storeAll, storeAll_eq vs (l.set i v) (i + 1) (by simp at h ⊢; omega)]
    have htake : (l.set i v).take (i + 1) = l.take i ++ [v] := by
      rw [List.set_eq_take_cons_drop v hlen, List.take_append_eq_append_take]
      have h1 : (l.take i).length = i := by simp; omega
      rw [List.take_take]
      have h2 : min (i + 1) i = i := by omega
      rw [h2, h1]
      simp
    have hdrop : (l.set i v).drop (i + 1 + vs.length) = l.drop (i + 1 + vs.length) := by
      rw [List.drop_set]
      have : i < i + 1 + vs.length := by omega
      simp [this]
    rw [htake, hdrop]
    simp only [List.length_cons]
    rw [List.append_assoc (l.take i) [v]]
    have : i + 1 + vs.length = i + (vs.length + 1) := by omega
    rw [this]
    rfl

theorem storeAll_full {α : Type} {vs l : List α} (h : vs.length = l.length) :
    storeAll l 0 vs = vs := by
  rw [storeAll_eq vs l 0 (by omega)]
  simp [← h]

theorem storeAll_replicate_pad {α : Type} {vs : List α} {z : α} {n : Nat}
    (h : vs.length ≤ n) :
    storeAll (List.replicate n z) 0 vs = vs ++ List.replicate (n - vs.length) z := by
  rw [storeAll_eq vs (List.replicate n z) 0 (by simp; omega)]
  simp [List.drop_replicate]

/-! ## Decimal representation lemmas -/

theorem natDigits_ne_nil (n : Nat) : natDigits n ≠ [] := by
  unfold natDigits
  split
  · simp
  · split <;> simp

theorem natDigits_isDecDigit {n : Nat} (hn : n < 1000) :
    ∀ c ∈ natDigits n, isDecDigit c = true := by
  intro c hc
  unfold natDigits at hc
  split at hc
  · next h =>
    simp only [List.mem_singleton] at hc
    subst hc
    exact isDecDigit_digitChar h
  · next h =>
    split at hc
    · next h2 =>
      simp only [List.mem_cons, List.mem_singleton, List.not_mem_nil, or_false] at hc
      rcases hc with rfl | rfl
      · exact isDecDigit_digitChar (by omega)
      · exact isDecDigit_digitChar (by omega)
    · next h2 =>
      simp only [List.mem_cons, List.mem_singleton, List.not_mem_nil, or_false] at hc
      rcases hc with rfl | rfl | rfl
      · exact isDecDigit_digitChar (by omega)
      · exact isDecDigit_digitChar (by omega)
      · exact isDecDigit_digitChar (by omega)

theorem digitsVal_natDigits {n : Nat} (hn : n < 1000) : digitsVal (natDigits n) = n := by
  unfold natDigits
  split
  · next h =>
    simp [digitsVal, digitChar_toNat h]
  · next h =>
    split
    · next h2 =>
      simp [digitsVal, digitChar_toNat (show n / 10 < 10 by omega),
        digitChar_toNat (show n % 10 < 10 by omega)]
      omega
    · next h2 =>
      simp [digitsVal, digitChar_toNat (show n / 100 < 10 by omega),
        digitChar_toNat (show n / 10 % 10 < 10 by omega),
        digitChar_toNat (show n % 10 < 10 by omega)]
      omega

theorem natDigits_length_one {n : Nat} (h : n < 10) :
    natDigits n = [Nat.digitChar n] := by
  simp [natDigits, h]

theorem one_lt_natDigits_length {n : Nat} (h : 10 ≤ n) : 1 < (natDigits n).length := by
  unfold natDigits
  split
  · omega
  · split <;> simp

theorem intChars_nonneg {v : Int} (h : 0 ≤ v) : intChars v = natDigits v.natAbs := by
  rw [intChars, if_neg (by omega)]

theorem intChars_neg {v : Int} (h : v < 0) : intChars v = '-' :: natDigits v.natAbs := by
  rw [intChars, if_pos h]

theorem heightToken_small {v : Int} (h0 : 0 ≤ v) (h9 : v ≤ 9) :
    heightToken v = [Nat.digitChar v.natAbs] := by
  have hv : intChars v = [Nat.digitChar v.natAbs] := by
    rw [intChars_nonneg h0, natDigits_length_one (by omega)]
  simp [heightToken, hv]

theorem heightToken_paren {v : Int} (h : v < 0 ∨ 10 ≤ v) :
    heightToken v = '(' :: intChars v ++ [')'] := by
  have hlen : 1 < (intChars v).length := by
    rcases h with h | h
    · rw [intChars_neg h]
      have := natDigits_ne_nil v.natAbs
      simp only [List.length_cons]
      have hpos : 0 < (natDigits v.natAbs).length := List.length_pos.mpr this
      omega
    · rw [intChars_nonneg (by omega)]
      exact one_lt_natDigits_length (by omega)
  rw [heightToken, if_pos hlen]

/-! ## `parseI8` round-trips with `intChars` -/

theorem parseI8Core_natDigits_pos {n : Nat} (hn : n < 1000) (hr : (n : Int) ≤ 127) :
    parseI8Core (natDigits n) false = some (n : Int) := by
  rw [parseI8Core, if_neg (natDigits_ne_nil n),
    if_pos (List.all_eq_true.mpr (natDigits_isDecDigit hn))]
  simp only [Bool.false_eq_true, if_false, digitsVal_natDigits hn]
  rw [if_pos (by constructor <;> omega)]

theorem parseI8Core_natDigits_neg {n : Nat} (hn : n < 1000) (hr : -128 ≤ -(n : Int)) :
    parseI8Core (natDigits n) true = some (-(n : Int)) := by
  rw [parseI8Core, if_neg (natDigits_ne_nil n),
    if_pos (List.all_eq_true.mpr (natDigits_isDecDigit hn))]
  simp only [if_true, digitsVal_natDigits hn]
  rw [if_pos (by constructor <;> omega)]

theorem parseI8_intChars {v : Int} (h1 : -128 ≤ v) (h2 : v ≤ 127) :
    parseI8 (intChars v) = some v := by
  have hn : v.natAbs < 1000 := by omega
  by_cases hv : v < 0
  · rw [intChars_neg hv, parseI8, if_pos rfl,
      parseI8Core_natDigits_neg hn (by omega)]
    congr 1
    omega
  · have h0 : 0 ≤ v := by omega
    obtain ⟨c, rest, hcr⟩ : ∃ c rest, natDigits v.natAbs = c :: rest := by
      cases h : natDigits v.natAbs with
      | nil => exact absurd h (natDigits_ne_nil _)
      | cons c rest => exact ⟨c, rest, rfl⟩
    have hcd : isDecDigit c = true :=
      natDigits_isDecDigit hn c (hcr ▸ List.mem_cons_self c rest)
    obtain ⟨hm, hp⟩ := isDecDigit_ne_sign hcd
    rw [intChars_nonneg h0, hcr, parseI8, if_neg hm, if_neg hp, ← hcr,
      parseI8Core_natDigits_pos hn (by omega)]
    congr 1
    omega

/-! ## Multi-character run lemmas for the scan loop -/

theorem plainChar_dash : plainChar '-' := ⟨by decide, by decide, by decide⟩

theorem plainChar_plus : plainChar '+' := ⟨by decide, by decide, by decide⟩

theorem runFrom_inparen_chars {i : Nat} {lm : List Int} {pm : List Char} :
    ∀ (cs : List Char) (t rest : List Char),
      (∀ c ∈ cs, isDecDigit c = true ∨ c = '-' ∨ c = '+') →
      runFrom ⟨true, t, i, lm, pm⟩ (cs ++ rest) = runFrom ⟨true, t ++ cs, i, lm, pm⟩ rest
  | [], t, rest, _ => by simp
  | c :: cs, t, rest, h => by
    have hc : plainChar c := by
      rcases h c (List.mem_cons_self c cs) with hd | rfl | rfl
      · exact plainChar_of_isDecDigit hd
      · exact plainChar_dash
      · exact plainChar_plus
    rw [List.cons_append, runFrom_cons_ok (step_inparen hc),
      runFrom_inparen_chars cs (t ++ [c]) rest (fun x hx => h x (List.mem_cons_of_mem c hx))]
    simp

theorem intChars_chars {v : Int} (h1 : -128 ≤ v) (h2 : v ≤ 127) :
    ∀ c ∈ intChars v, isDecDigit c = true ∨ c = '-' ∨ c = '+' := by
  have hn : v.natAbs < 1000 := by omega
  intro c hc
  by_cases hv : v < 0
  · rw [intChars_neg hv] at hc
    rcases List.mem_cons.mp hc with rfl | hc
    · exact .inr (.inl rfl)
    · exact .inl (natDigits_isDecDigit hn c hc)
  · rw [intChars_nonneg (by omega)] at hc
    exact .inl (natDigits_isDecDigit hn c hc)

theorem runFrom_heightToken {v : Int} {i : Nat} {lm : List Int} {pm : List Char}
    (h1 : -128 ≤ v) (h2 : v ≤ 127) (hi : i < 256) (rest : List Char) :
    runFrom ⟨false, [], i, lm, pm⟩ (heightToken v ++ rest) =
      runFrom ⟨false, [], i + 1, lm.set i v, pm⟩ rest := by
  by_cases hs : 0 ≤ v ∧ v ≤ 9
  · rw [heightToken_small hs.1 hs.2, List.singleton_append,
      runFrom_cons_ok (step_digit (show v.natAbs < 10 by omega) hi),
      Int.natAbs_of_nonneg hs.1]
  · have hpar : v < 0 ∨ 10 ≤ v := by omega
    rw [heightToken_paren hpar]
    simp only [List.cons_append, List.append_assoc, List.singleton_append, List.nil_append]
    rw [runFrom_cons_ok step_lparen,
      runFrom_inparen_chars (intChars v) [] (')' :: rest) (intChars_chars h1 h2),
      List.nil_append, runFrom_cons_ok (step_rparen (parseI8_intChars h1 h2) hi)]

theorem runFrom_saveLevels :
    ∀ (vs : List Int) (j i : Nat) (lm : List Int) (pm : List Char) (rest : List Char),
      (∀ v ∈ vs, -128 ≤ v ∧ v ≤ 127) → i + vs.length ≤ 256 →
      runFrom ⟨false, [], i, lm, pm⟩ (saveLevelsAux vs j ++ rest) =
        runFrom ⟨false, [], i + vs.length, storeAll lm i vs, pm⟩ rest
  | [], j, i, lm, pm, rest, _, _ => by simp [saveLevelsAux, storeAll]
  | v :: vs, j, i, lm, pm, rest, h, hlen => by
    obtain ⟨hv1, hv2⟩ := h v (List.mem_cons_self v vs)
    have hi : i < 256 := by simp at hlen; omega
    have htail : ∀ x ∈ vs, -128 ≤ x ∧ x ≤ 127 :=
      fun x hx => h x (List.mem_cons_of_mem v hx)
    have hlen' : (i + 1) + vs.length ≤ 256 := by simp at hlen; omega
    rw [saveLevelsAux]
    split
    · simp only [List.cons_append, List.append_assoc, List.singleton_append, List.nil_append]
      rw [runFrom_cons_newline, runFrom_heightToken hv1 hv2 hi,
        runFrom_saveLevels vs (j + 1) (i + 1) _ pm rest htail hlen',
        storeAll, List.length_cons]
      have hidx : i + (vs.length + 1) = i + 1 + vs.length := by omega
      rw [hidx]
    · simp only [List.nil_append, List.append_assoc]
      rw [runFrom_heightToken hv1 hv2 hi,
        runFrom_saveLevels vs (j + 1) (i + 1) _ pm rest htail hlen',
        storeAll, List.length_cons]
      have hidx : i + (vs.length + 1) = i + 1 + vs.length := by omega
      rw [hidx]

theorem parseI8Core_digits {ds : List Char} {neg : Bool} {v : Int}
    (h : parseI8Core ds neg = some v) : ∀ c ∈ ds, isDecDigit c = true := by
  rw [parseI8Core] at h
  split at h
  · exact absurd h (by simp)
  · split at h
    · next hall => exact List.all_eq_true.mp hall
    · exact absurd h (by simp)

theorem parseI8_chars {cs : List Char} {v : Int} (h : parseI8 cs = some v) :
    ∀ c ∈ cs, isDecDigit c = true ∨ c = '-' ∨ c = '+' := by
  cases cs with
  | nil => exact absurd h (by simp [parseI8])
  | cons c0 rest =>
    rw [parseI8] at h
    intro c hc
    by_cases h0 : c0 = '-'
    · rw [if_pos h0] at h
      rcases List.mem_cons.mp hc with rfl | hc
      · exact .inr (.inl h0)
      · exact .inl (parseI8Core_digits h c hc)
    · rw [if_neg h0] at h
      by_cases h1 : c0 = '+'
      · rw [if_pos h1] at h
        rcases List.mem_cons.mp hc with rfl | hc
        · exact .inr (.inr h1)
        · exact .inl (parseI8Core_digits h c hc)
      · rw [if_neg h1] at h
        exact .inl (parseI8Core_digits h c hc)

theorem runFrom_tok {t : HToken} (hw : wellformedTok t = true) {i : Nat}
    {lm : List Int} {pm : List Char} (hi : i < 256) (rest : List Char) :
    runFrom ⟨false, [], i, lm, pm⟩ (renderTok t ++ rest) =
      runFrom ⟨false, [], i + 1, lm.set i (tokVal t), pm⟩ rest := by
  cases t with
  | dig d =>
    have hd : d < 10 := by simpa [wellformedTok] using hw
    rw [renderTok, List.singleton_append, runFrom_cons_ok (step_digit hd hi), tokVal]
  | paren cs =>
    obtain ⟨v, hv⟩ : ∃ v, parseI8 cs = some v := by
      simpa [wellformedTok, Option.isSome_iff_exists] using hw
    rw [renderTok]
    simp only [List.cons_append, List.append_assoc, List.singleton_append, List.nil_append]
    rw [runFrom_cons_ok step_lparen,
      runFrom_inparen_chars cs [] (')' :: rest) (parseI8_chars hv),
      List.nil_append, runFrom_cons_ok (step_rparen hv hi)]
    have htv : tokVal (.paren cs) = v := by simp [tokVal, hv]
    rw [htv]

theorem runFrom_renderTokens :
    ∀ (ts : List HToken) (i : Nat) (lm : List Int) (pm : List Char) (rest : List Char),
      (∀ t ∈ ts, wellformedTok t = true) → i + ts.length ≤ 256 →
      runFrom ⟨false, [], i, lm, pm⟩ (renderTokens ts ++ rest) =
        runFrom ⟨false, [], i + ts.length, storeAll lm i (ts.map tokVal), pm⟩ rest
  | [], i, lm, pm, rest, _, _ => by simp [renderTokens, storeAll]
  | t :: ts, i, lm, pm, rest, h, hlen => by
    have hi : i < 256 := by simp at hlen; omega
    have hlen' : (i + 1) + ts.length ≤ 256 := by simp at hlen; omega
    rw [renderTokens, List.append_assoc, runFrom_tok (h t (List.mem_cons_self t ts)) hi,
      runFrom_renderTokens ts (i + 1) _ pm rest (fun x hx => h x (List.mem_cons_of_mem t hx)) hlen']
    rw [List.map_cons, storeAll, List.length_cons]
    have hidx : i + (ts.length + 1) = i + 1 + ts.length := by omega
    rw [hidx]

theorem runFrom_prefabChars :
    ∀ (cs : List Char) (i : Nat) (lm : List Int) (pm : List Char) (rest : List Char),
      (∀ c ∈ cs, plainChar c) → 256 ≤ i → i + cs.length ≤ 512 →
      runFrom ⟨false, [], i, lm, pm⟩ (cs ++ rest) =
        runFrom ⟨false, [], i + cs.length, lm, storeAll pm (i - 256) cs⟩ rest
  | [], i, lm, pm, rest, _, _, _ => by simp [storeAll]
  | c :: cs, i, lm, pm, rest, h, hlo, hhi => by
    have hc := h c (List.mem_cons_self c cs)
    have hi2 : i < 512 := by simp at hhi; omega
    rw [List.cons_append, runFrom_cons_ok (step_prefab hc hlo hi2),
      runFrom_prefabChars cs (i + 1) lm _ rest (fun x hx => h x (List.mem_cons_of_mem c hx))
        (by omega) (by simp at hhi; omega)]
    rw [storeAll, List.length_cons]
    have h1 : i + 1 - 256 = (i - 256) + 1 := by omega
    have h2 : i + 1 + cs.length = i + (cs.length + 1) := by omega
    rw [h1, h2]

theorem plainChar_matchChar (p : Prefab) : plainChar (Prefab.matchChar p) := by
  cases p <;> exact ⟨by decide, by decide, by decide⟩

theorem runFrom_savePrefabs :
    ∀ (ps : List Prefab) (j i : Nat) (lm : List Int) (pm : List Char) (rest : List Char),
      256 ≤ i → i + ps.length ≤ 512 →
      runFrom ⟨false, [], i, lm, pm⟩ (savePrefabsAux ps j ++ rest) =
        runFrom ⟨false, [], i + ps.length, lm,
          storeAll pm (i - 256) (ps.map Prefab.matchChar)⟩ rest
  | [], j, i, lm, pm, rest, _, _ => by simp [savePrefabsAux, storeAll]
  | p :: ps, j, i, lm, pm, rest, hlo, hhi => by
    have hi2 : i < 512 := by simp at hhi; omega
    have hhi' : (i + 1) + ps.length ≤ 512 := by simp at hhi; omega
    rw [savePrefabsAux]
    split
    · simp only [List.cons_append, List.append_assoc, List.singleton_append,
        List.nil_append]
      rw [runFrom_cons_newline,
        runFrom_cons_ok (step_prefab (plainChar_matchChar p) hlo hi2),
        runFrom_savePrefabs ps (j + 1) (i + 1) lm _ rest (by omega) hhi']
      rw [List.map_cons, storeAll, List.length_cons]
      have h1 : i + 1 - 256 = (i - 256) + 1 := by omega
      have h2 : i + (ps.length + 1) = i + 1 + ps.length := by omega
      rw [h1, h2]
    · simp only [List.cons_append, List.append_assoc, List.singleton_append,
        List.nil_append]
      rw [runFrom_cons_ok (step_prefab (plainChar_matchChar p) hlo hi2),
        runFrom_savePrefabs ps (j + 1) (i + 1) lm _ rest (by omega) hhi']
      rw [List.map_cons, storeAll, List.length_cons]
      have h1 : i + 1 - 256 = (i - 256) + 1 := by omega
      have h2 : i + (ps.length + 1) = i + 1 + ps.length := by omega
      rw [h1, h2]

/-! ## Prefab resolution lemmas -/

theorem resolveOne_matchChar (p : Prefab) : resolveOne (Prefab.matchChar p) = .ok p := by
  cases p <;> rfl

theorem resolvePrefabs_matchChar :
    ∀ ps : List Prefab, resolvePrefabs (ps.map Prefab.matchChar) = .ok ps
  | [] => rfl
  | p :: ps => by
    rw [List.map_cons, resolvePrefabs, resolveOne_matchChar, resolvePrefabs_matchChar ps]
    rfl

theorem resolvePrefabs_replicate_zero :
    ∀ k : Nat, resolvePrefabs (List.replicate k '0') = .ok (List.replicate k Prefab.Empty)
  | 0 => rfl
  | k + 1 => by
    rw [List.replicate_succ, resolvePrefabs, List.replicate_succ,
      resolvePrefabs_replicate_zero k]
    rfl

/-! ## Assembly lemmas -/

theorem runFrom_cons_fatal {s : ParseState} {c : Char} {cs : List Char}
    (h : step s c = .fatal) : runFrom s (c :: cs) = .fatal := by
  rw [runFrom, h]
  rfl

theorem fromText_savePattern {lm : List Int} {pm : List Prefab}
    (hlm : lm.length = 256) (hpm : pm.length = 256)
    (hrange : ∀ v ∈ lm, -128 ≤ v ∧ v ≤ 127) :
    fromText (savePatternText ⟨lm, pm⟩) = .ok ⟨lm, pm⟩ := by
  rw [savePatternText]
  dsimp only
  rw [fromText, initState,
    runFrom_saveLevels lm 0 0 _ _ _ hrange (by omega),
    storeAll_full (by simp [hlm])]
  have hidx : 0 + lm.length = 256 := by omega
  rw [hidx, runFrom_cons_newline, runFrom_cons_newline,
    runFrom_savePrefabs pm 0 256 _ _ _ (by omega) (by omega)]
  have h0 : (256 : Nat) - 256 = 0 := rfl
  rw [h0, storeAll_full (by simp [hpm]), runFrom_cons_newline, runFrom]
  simp only [PResult.andThen]
  rw [resolvePrefabs_matchChar]

theorem renderTokens_replicate_dig0 :
    ∀ k : Nat, renderTokens (List.replicate k (HToken.dig 0)) = List.replicate k '0'
  | 0 => rfl
  | k + 1 => by
    rw [List.replicate_succ, renderTokens, renderTokens_replicate_dig0 k,
      List.replicate_succ]
    rfl

theorem runFrom_zeros (rest : List Char) :
    runFrom initState (List.replicate 256 '0' ++ rest) =
      runFrom ⟨false, [], 256, List.replicate 256 0, List.replicate 256 '0'⟩ rest := by
  rw [initState, ← renderTokens_replicate_dig0 256,
    runFrom_renderTokens (List.replicate 256 (HToken.dig 0)) 0 _ _ rest
      (fun t ht => by rw [List.eq_of_mem_replicate ht]; rfl) (by simp)]
  rw [List.map_replicate, show tokVal (HToken.dig 0) = 0 from rfl,
    storeAll_full (by simp)]
  have hidx : 0 + (List.replicate 256 (HToken.dig 0)).length = 256 := by simp
  rw [hidx]

theorem plainChar_X : plainChar 'X' := ⟨by decide, by decide, by decide⟩

theorem plainChar_n : plainChar 'n' := ⟨by decide, by decide, by decide⟩

theorem fromText_zeros_X : fromText (List.replicate 256 '0' ++ ['X']) = .fatal := by
  rw [fromText, runFrom_zeros,
    runFrom_cons_ok (step_prefab plainChar_X (by omega) (by omega)), runFrom]
  simp only [PResult.andThen]
  have hset : (List.replicate 256 '0').set (256 - 256) 'X' = 'X' :: List.replicate 255 '0' := by
    decide
  rw [hset, resolvePrefabs, show resolveOne 'X' = .fatal from rfl]
  rfl

theorem fromText_zeros_overflow :
    fromText (List.replicate 256 '0' ++ List.replicate 257 'n') = .fatal := by
  have hsplit : List.replicate 257 'n' = List.replicate 256 'n' ++ ['n'] := by decide
  rw [fromText, runFrom_zeros, hsplit,
    runFrom_prefabChars (List.replicate 256 'n') 256 _ _ ['n']
      (fun c hc => by rw [List.eq_of_mem_replicate hc]; exact plainChar_n)
      (by omega) (by simp)]
  have hidx : 256 + (List.replicate 256 'n').length = 512 := by simp
  rw [hidx, runFrom_cons_fatal (step_prefab_oob plainChar_n (by omega))]
  rfl

theorem rawLevelChars_ok {lm : List Int} (h : ∀ v ∈ lm, 0 ≤ v ∧ v ≤ 9) :
    rawLevelChars lm = .ok (lm.map fun v => Nat.digitChar v.toNat) := by
  induction lm with
  | nil => rfl
  | cons v vs ih =>
    have hv := h v (List.mem_cons_self v vs)
    rw [rawLevelChars, rawLevelChar, if_pos hv,
      ih (fun x hx => h x (List.mem_cons_of_mem v hx)), List.map_cons]
    rfl

theorem rawLevelChars_fatal {lm : List Int} (h : ∃ v ∈ lm, v < 0 ∨ 9 < v) :
    rawLevelChars lm = .fatal := by
  induction lm with
  | nil => simp at h
  | cons v vs ih =>
    by_cases hv : 0 ≤ v ∧ v ≤ 9
    · have htail : ∃ x ∈ vs, x < 0 ∨ 9 < x := by
        obtain ⟨w, hw, hwr⟩ := h
        rcases List.mem_cons.mp hw with rfl | hw
        · exact absurd hv (by omega)
        · exact ⟨w, hw, hwr⟩
      rw [rawLevelChars, rawLevelChar, if_pos hv, ih htail]
      rfl
    · rw [rawLevelChars, rawLevelChar, if_neg hv]
      rfl

/-! ## Claim theorems -/

/-- C1: round-trip law — for every grid whose 256 height levels are all in
[-50, 50] (its 256 prefabs being `Prefab` values, hence valid variants),
parsing the text produced by the serializer (`save_pattern`'s output text)
yields a grid equal to the original, cell for cell in both maps. -/
theorem parse_save_roundtrip (p : MapPattern)
    (hlm : p.level_map.length = 256) (hpm : p.prefab_map.length = 256)
    (hrange : ∀ v ∈ p.level_map, -50 ≤ v ∧ v ≤ 50) :
    fromText (savePatternText p) = .ok p := by
  obtain ⟨lm, pm⟩ := p
  exact fromText_savePattern hlm hpm
    (fun v hv => ⟨by have := (hrange v hv).1; omega, by have := (hrange v hv).2; omega⟩)

/-- Witness for C1 at a concrete grid holding a negative level, a two-digit
level, single-digit levels and a non-`Empty` prefab. -/
theorem parse_save_roundtrip_witness :
    fromText (savePatternText
        ⟨-12 :: 37 :: List.replicate 254 5,
         Prefab.Melee :: List.replicate 255 Prefab.Empty⟩) =
      .ok ⟨-12 :: 37 :: List.replicate 254 5,
           Prefab.Melee :: List.replicate 255 Prefab.Empty⟩ :=
  parse_save_roundtrip _ (by decide) (by decide) (by decide)

/-- C2 counterexample: the claim says the parse never aborts and that a
malformed parenthesized literal surfaces as a typed error; on input `"(x)"`
the code reaches `temp.parse().unwrap()` with the unparsable buffer `"x"`
and aborts (`fatal`), returning no typed error at all. -/
theorem parse_paren_literal_fatal_cex :
    fromText ['(', 'x', ')'] = .fatal ∧
    fromText ['(', 'x', ')'] ≠ .err RError.ultraMapParsingError ∧
    fromText ['(', 'x', ')'] ≠ .err RError.ultraMapConversionError := by
  refine ⟨by decide, by decide, by decide⟩

/-- C2 amended: the parse is total with three outcomes — grid, typed error,
or abort. A non-digit character in the height phase does surface as the
typed `ConversionError`, but a malformed parenthesized literal, an unmapped
prefab character, and an input with more than 512 tokens all abort
(unwrap / out-of-bounds indexing) instead of returning typed errors. -/
theorem parse_error_classification :
    (∀ c : Char, isRustWhitespace c = false → isDecDigit c = false →
      c ≠ '(' → c ≠ ')' → fromText [c] = .err RError.ultraMapConversionError) ∧
    fromText ['(', 'x', ')'] = .fatal ∧
    fromText (List.replicate 256 '0' ++ ['X']) = .fatal ∧
    fromText (List.replicate 256 '0' ++ List.replicate 257 'n') = .fatal := by
  refine ⟨?_, by decide, fromText_zeros_X, fromText_zeros_overflow⟩
  intro c hw hd h1 h2
  have hcd : charToDigit? c = none := by
    rw [charToDigit?, if_neg]
    intro hcon
    have hdt : isDecDigit c = true := by
      simp only [isDecDigit, Bool.and_eq_true, decide_eq_true_eq]
      exact hcon
    rw [hdt] at hd
    exact absurd hd (by decide)
  have hstep : step ⟨false, [], 0, List.replicate 256 0, List.replicate 256 '0'⟩ c =
      .err .ultraMapConversionError := by
    rw [step, if_neg (by simp [hw]), if_neg h1, if_neg h2]
    dsimp only
    rw [if_neg (by simp), if_pos (by omega), hcd]
  rw [fromText, initState, runFrom, hstep]
  rfl

/-- Witness for C2 amended, first conjunct at `c = 'x'`. -/
theorem parse_error_classification_witness :
    fromText ['x'] = .err RError.ultraMapConversionError :=
  parse_error_classification.1 'x' (by decide) (by decide) (by decide) (by decide)

/-- C3 counterexample: on an input whose prefab section contains the
unmapped character `X`, the parse does not return the typed
`InvalidCharacter` error — the resolution loop unwraps the failed
conversion and aborts. -/
theorem invalid_prefab_char_cex :
    fromText (List.replicate 256 '0' ++ ['X']) ≠ .err RError.ultraMapInvalidCharacter ∧
    fromText (List.replicate 256 '0' ++ ['X']) = .fatal :=
  ⟨by rw [fromText_zeros_X]; decide, fromText_zeros_X⟩

/-- C3 amended: the character-to-`Prefab` conversion itself does produce the
typed `InvalidCharacter` error for an unmapped character such as `X`, but
`MapPattern::from` calls it with `.unwrap()`, so the parse aborts rather
than returning that error to the caller. -/
theorem invalid_prefab_char_fatal :
    Prefab.tryFromChar 'X' = .error RError.ultraMapInvalidCharacter ∧
    fromText (List.replicate 256 '0' ++ ['X']) = .fatal :=
  ⟨rfl, fromText_zeros_X⟩

/-- C4 counterexample: a grid reachable by one public per-cell setter call
from the default grid holds the level −51 ∉ [−50, 50]:
`set_level_at_index(0, −51)` is accepted and stored, because the setter
checks only the upper bound. -/
theorem level_invariant_cex :
    setLevelAtIndex defaultMapPattern 0 (-51) =
      .ok { defaultMapPattern with
            level_map := defaultMapPattern.level_map.set 0 (-51) } ∧
    ¬(-50 ≤ (-51 : Int)) := by
  refine ⟨by decide, by decide⟩

/-- C4 amended: the default grid satisfies the range invariant and
`set_level_at` rejects every out-of-range level, but `set_level_at_index`
rejects only levels above 50 — it accepts and stores any level ≤ 50,
including levels below −50, so the [−50, 50] invariant does not survive
that setter (nor the parse, which stores any `i8` a parenthesized literal
denotes). -/
theorem level_invariant_amended :
    (∀ v ∈ defaultMapPattern.level_map, -50 ≤ v ∧ v ≤ 50) ∧
    (∀ (p : MapPattern) (x y : Nat) (lvl : Int),
      (lvl < -50 ∨ 50 < lvl) → setLevelAt p x y lvl = .fatal) ∧
    (∀ (p : MapPattern) (i : Nat) (lvl : Int), 50 < lvl →
      setLevelAtIndex p i lvl = .fatal) ∧
    (∀ (p : MapPattern) (i : Nat) (lvl : Int), i < 256 → lvl ≤ 50 →
      setLevelAtIndex p i lvl =
        .ok { p with level_map := p.level_map.set i lvl }) := by
  refine ⟨?_, ?_, ?_, ?_⟩
  · intro v hv
    rw [List.eq_of_mem_replicate hv]
    exact ⟨by decide, by decide⟩
  · intro p x y lvl hl
    rw [setLevelAt]
    by_cases hxy : 256 ≤ x * 16 + y
    · rw [if_pos hxy]
    · rw [if_neg hxy, if_pos (by rcases hl with h | h <;> omega)]
  · intro p i lvl hl
    rw [setLevelAtIndex]
    by_cases hi : 256 ≤ i
    · rw [if_pos hi]
    · rw [if_neg hi, if_pos (by omega)]
  · intro p i lvl hi hl
    rw [setLevelAtIndex, if_neg (by omega), if_neg (by omega)]

/-- Witness for C4 amended: the three mutator conjuncts at concrete
arguments. -/
theorem level_invariant_amended_witness :
    setLevelAt defaultMapPattern 0 0 (-51) = .fatal ∧
    setLevelAtIndex defaultMapPattern 0 51 = .fatal ∧
    setLevelAtIndex defaultMapPattern 1 (-60) =
      .ok { defaultMapPattern with
            level_map := defaultMapPattern.level_map.set 1 (-60) } :=
  ⟨level_invariant_amended.2.1 defaultMapPattern 0 0 (-51) (.inl (by decide)),
   level_invariant_amended.2.2.1 defaultMapPattern 0 51 (by decide),
   level_invariant_amended.2.2.2 defaultMapPattern 1 (-60) (by decide) (by decide)⟩

/-- C5: `set_level_at_index(index, level)` fails fatally exactly when
`index ≥ 256` or `level > 50`; any other call — including every
`level < −50` with `index < 256` — is accepted and stored. -/
theorem set_level_at_index_spec (p : MapPattern) (i : Nat) (lvl : Int) :
    (setLevelAtIndex p i lvl = .fatal ↔ 256 ≤ i ∨ 50 < lvl) ∧
    (i < 256 → lvl ≤ 50 →
      setLevelAtIndex p i lvl = .ok { p with level_map := p.level_map.set i lvl }) := by
  constructor
  · rw [setLevelAtIndex]
    split
    · next h => exact iff_of_true rfl (.inl h)
    · next h =>
      split
      · next h2 => exact iff_of_true rfl (.inr h2)
      · next h2 => exact iff_of_false (by simp) (by omega)
  · intro hi hl
    rw [setLevelAtIndex, if_neg (by omega), if_neg (by omega)]

/-- Witness for C5: `(255, 50)` succeeds, `(256, 0)` and `(0, 51)` are
fatal, `(0, −51)` is accepted and stored. -/
theorem set_level_at_index_spec_witness :
    setLevelAtIndex defaultMapPattern 255 50 =
      .ok { defaultMapPattern with
            level_map := defaultMapPattern.level_map.set 255 50 } ∧
    setLevelAtIndex defaultMapPattern 256 0 = .fatal ∧
    setLevelAtIndex defaultMapPattern 0 51 = .fatal ∧
    setLevelAtIndex defaultMapPattern 0 (-51) =
      .ok { defaultMapPattern with
            level_map := defaultMapPattern.level_map.set 0 (-51) } :=
  ⟨(set_level_at_index_spec defaultMapPattern 255 50).2 (by decide) (by decide),
   (set_level_at_index_spec defaultMapPattern 256 0).1.mpr (.inl (by decide)),
   (set_level_at_index_spec defaultMapPattern 0 51).1.mpr (.inr (by decide)),
   (set_level_at_index_spec defaultMapPattern 0 (-51)).2 (by decide) (by decide)⟩

/-- C6: truncation leniency — an input consisting of fewer than 256
well-formed height tokens parses successfully, and every cell at an index
never reached holds the pre-parse default: level 0 and prefab `Empty`. -/
theorem truncated_parse_spec (ts : List HToken)
    (hlen : ts.length < 256) (hwf : ∀ t ∈ ts, wellformedTok t = true) :
    fromText (renderTokens ts) =
      .ok ⟨ts.map tokVal ++ List.replicate (256 - ts.length) 0,
           List.replicate 256 Prefab.Empty⟩ := by
  rw [fromText, initState]
  have h1 := runFrom_renderTokens ts 0 (List.replicate 256 0) (List.replicate 256 '0') []
    hwf (by omega)
  rw [List.append_nil] at h1
  rw [h1, runFrom]
  simp only [PResult.andThen]
  rw [resolvePrefabs_replicate_zero]
  simp only [PResult.andThen]
  rw [storeAll_replicate_pad (by simp; omega), List.length_map]

/-- Witness for C6 at the two-token input `7 (-31)`: the first two cells get
7 and −31, the remaining 254 stay 0, all prefabs stay `Empty`. -/
theorem truncated_parse_spec_witness :
    fromText (renderTokens [HToken.dig 7, HToken.paren ['-', '3', '1']]) =
      .ok ⟨[HToken.dig 7, HToken.paren ['-', '3', '1']].map tokVal ++
             List.replicate (256 - 2) 0,
           List.replicate 256 Prefab.Empty⟩ :=
  truncated_parse_spec [HToken.dig 7, HToken.paren ['-', '3', '1']]
    (by decide) (by decide)

/-- C7 counterexample: on the default grid, `get_map_raw` does not return
the text `save_pattern` writes — it emits no row wrapping, a single line
break instead of a blank line, and no trailing newline. -/
theorem get_map_raw_cex :
    getMapRaw defaultMapPattern ≠ .ok (savePatternText defaultMapPattern) := by
  decide

/-- C7 amended: `get_map_raw` is not the canonical serializer text. For a
grid whose levels all lie in [0, 9] it returns the 256 bare digit
characters with no row wrapping, one line break, and the 256 prefab
characters (via the `Into<char>` impl) with no trailing newline; for any
level outside [0, 9] it aborts on `char::from_digit(...).unwrap()` (the
`i8` → `u32` cast sign-extends negative values). -/
theorem get_map_raw_amended (lm : List Int) (pm : List Prefab) :
    ((∀ v ∈ lm, 0 ≤ v ∧ v ≤ 9) →
      getMapRaw ⟨lm, pm⟩ =
        .ok ((lm.map fun v => Nat.digitChar v.toNat) ++
          '\n' :: pm.map Prefab.intoChar)) ∧
    ((∃ v ∈ lm, v < 0 ∨ 9 < v) → getMapRaw ⟨lm, pm⟩ = .fatal) := by
  constructor
  · intro h
    rw [getMapRaw]
    dsimp only
    rw [rawLevelChars_ok h]
    rfl
  · intro h
    rw [getMapRaw]
    dsimp only
    rw [rawLevelChars_fatal h]
    rfl

/-- Witness for C7 amended: the in-range conjunct on the default grid and
the abort conjunct on a grid holding a negative level. -/
theorem get_map_raw_amended_witness :
    getMapRaw ⟨List.replicate 256 0, List.replicate 256 Prefab.Empty⟩ =
      .ok (((List.replicate 256 (0 : Int)).map fun v => Nat.digitChar v.toNat) ++
        '\n' :: (List.replicate 256 Prefab.Empty).map Prefab.intoChar) ∧
    getMapRaw ⟨-5 :: List.replicate 255 0, List.replicate 256 Prefab.Empty⟩ = .fatal :=
  ⟨(get_map_raw_amended (List.replicate 256 0) (List.replicate 256 Prefab.Empty)).1
      (by decide),
   (get_map_raw_amended (-5 :: List.replicate 255 0) (List.replicate 256 Prefab.Empty)).2
      ⟨-5, by decide, by decide⟩⟩

/-- C8: the claim (and the spec's sentinel design) says the default `Prefab`
is `Empty`, but the `Default` impl in the code returns `Projectile` — at
odds with every other default-fill site of the same file
(`MapPattern::default` and the parse pre-initialisation use `Empty`). -/
theorem prefab_default_is_projectile :
    prefabDefault = Prefab.Projectile ∧ prefabDefault ≠ Prefab.Empty := by
  refine ⟨rfl, by decide⟩

/-- C9 counterexample: with the scan index at 256 (prefab phase), the
character `(` is not consumed as a raw prefab token stored at index 0 — it
flips the parser into the `InParens` state and advances nothing. -/
theorem prefab_phase_paren_cex :
    step ⟨false, [], 256, List.replicate 256 0, List.replicate 256 '0'⟩ '(' =
      .ok ⟨true, [], 256, List.replicate 256 0, List.replicate 256 '0'⟩ ∧
    step ⟨false, [], 256, List.replicate 256 0, List.replicate 256 '0'⟩ '(' ≠
      .ok ⟨false, [], 257, List.replicate 256 0,
           (List.replicate 256 '0').set 0 '('⟩ := by
  refine ⟨step_lparen, by decide⟩

/-- C9 amended: in the prefab phase (index ≥ 256) every non-whitespace
character other than `(` and `)` is consumed as a single-character raw
prefab token stored at `index − 256` with the index advancing and the state
staying `Normal`; `(` and `)` keep their escape meaning because their
branches are tested before the phase split. -/
theorem prefab_phase_step_amended (s : ParseState) (c : Char)
    (hb : s.inParens = false) (hw : isRustWhitespace c = false)
    (h1 : c ≠ '(') (h2 : c ≠ ')') (hlo : 256 ≤ s.index) (hhi : s.index < 512) :
    step s c = .ok { s with
                     index := s.index + 1
                     prefab_map := s.prefab_map.set (s.index - 256) c } := by
  obtain ⟨b, t, i, lm, pm⟩ := s
  dsimp only at hb hlo hhi ⊢
  subst hb
  exact step_prefab ⟨hw, h1, h2⟩ hlo hhi

/-- Witness for C9 amended at index 256 and the prefab character `n`. -/
theorem prefab_phase_step_amended_witness :
    step ⟨false, [], 256, List.replicate 256 0, List.replicate 256 '0'⟩ 'n' =
      .ok ⟨false, [], 257, List.replicate 256 0,
           (List.replicate 256 '0').set 0 'n'⟩ :=
  prefab_phase_step_amended _ 'n' rfl (by decide) (by decide) (by decide)
    (by decide) (by decide)

/-- C10: `set_prefab_at` performs no explicit bounds check — for
`x*16 + y ≥ 256` the write aborts on the array indexing itself (the guarded
embedding's `fatal` branch; no typed `IndexOutOfBounds` is returned), and
for `x*16 + y < 256` it writes unconditionally, leaving the level map and
every other prefab cell unchanged. -/
theorem set_prefab_at_spec (p : MapPattern) (x y : Nat) (pf : Prefab) :
    (256 ≤ x * 16 + y →
      setPrefabAt p x y pf = .fatal ∧
      setPrefabAt p x y pf ≠ .err RError.ultraMapIndexOutOfBounds) ∧
    (x * 16 + y < 256 →
      setPrefabAt p x y pf =
        .ok { p with prefab_map := p.prefab_map.set (x * 16 + y) pf } ∧
      ∀ j : Nat, j ≠ x * 16 + y →
        (p.prefab_map.set (x * 16 + y) pf)[j]? = p.prefab_map[j]?) := by
  constructor
  · intro h
    have hf : setPrefabAt p x y pf = .fatal := by
      rw [setPrefabAt, if_neg (by omega)]
    exact ⟨hf, by rw [hf]; decide⟩
  · intro h
    refine ⟨by rw [setPrefabAt, if_pos h], fun j hj => List.getElem?_set_ne (Ne.symm hj)⟩

/-- Witness for C10: `(16, 0)` (index 256) aborts; `(0, 3)` writes cell 3
and leaves cell 4 unchanged. -/
theorem set_prefab_at_spec_witness :
    setPrefabAt defaultMapPattern 16 0 Prefab.Melee = .fatal ∧
    setPrefabAt defaultMapPattern 0 3 Prefab.Melee =
      .ok { defaultMapPattern with
            prefab_map := defaultMapPattern.prefab_map.set (0 * 16 + 3) Prefab.Melee } ∧
    (defaultMapPattern.prefab_map.set (0 * 16 + 3) Prefab.Melee)[4]? =
      defaultMapPattern.prefab_map[4]? :=
  ⟨((set_prefab_at_spec defaultMapPattern 16 0 Prefab.Melee).1 (by decide)).1,
   ((set_prefab_at_spec defaultMapPattern 0 3 Prefab.Melee).2 (by decide)).1,
   ((set_prefab_at_spec defaultMapPattern 0 3 Prefab.Melee).2 (by decide)).2 4 (by decide)⟩
